import Mathlib

/-!
Shallow embedding of `la_forge/bfacs.py` (thermodynamic-integration Bayes-factor
utilities) and verification of the specification claims about it.

Modelling conventions:
* numpy float arrays become Lean lists over a `LinearOrderedField` (instantiated
  at `ℚ` for concrete evaluation and at `ℝ` where the code takes `log10`/`10**x`);
* a numpy 2-D array is a row-major `List (List α)`;
* the numpy random generator is a state `Gen`: an index stream `ℕ → ℕ` plus a
  position; `rng.choice(arr, (r, c))` consumes `r*c` stream values, each reduced
  modulo the pool length, and advances the position (uniform choice with
  replacement is modelled by universally quantifying over the stream);
* `emcee.autocorr.integrated_time` (external estimator) is an uninterpreted
  parameter `it : List α → ℕ` standing for `int(integrated_time(...))`;
* Python `a[::tau]` slicing is `thinBy`;
* the `Core.get_param` chain accessor (repository code outside this module) is
  modelled from the spec as a lookup plus optional thinning.
-/

set_option autoImplicit false

namespace LaForge

variable {α : Type} {β : Type} {π : Type}

/-- Python slicing `l[::s]`: every `s`-th element starting at index 0.
A zero stride raises in Python; we return `[]` there (never relied upon). -/
def thinBy (l : List α) (s : ℕ) : List α :=
  if s = 0 then [] else (List.range ((l.length + (s - 1)) / s)).filterMap (fun k => l[k * s]?)

/-- State of a numpy random generator: an index stream and a current position. -/
structure Gen where
  stream : ℕ → ℕ
  pos : ℕ

/-- The raw draw matrix of `rng.choice(arr, (rows, cols))`: entry `(r, c)` is
`arr[stream (pos + r*cols + c) % arr.length]` (with a junk default `dflt` on an
empty pool, where numpy would raise). -/
def rngChoice (dflt : α) (arr : List α) (rows cols : ℕ) (stream : ℕ → ℕ) (pos : ℕ) :
    List (List α) :=
  (List.range rows).map (fun r =>
    (List.range cols).map (fun c => (arr[(stream (pos + r * cols + c)) % arr.length]?).getD dflt))

/-- Embeds `rng.choice(arr, (rows, cols))` as a state transformer on the generator:
returns the draw matrix and advances the position by the number of draws. -/
def Gen.choice (g : Gen) (dflt : α) (arr : List α) (rows cols : ℕ) :
    List (List α) × Gen :=
  (rngChoice dflt arr rows cols g.stream g.pos, ⟨g.stream, g.pos + rows * cols⟩)

/-- Embeds `np.mean` of a 1-D array (sum over length; `0/0 = 0` junk on empty input,
where numpy returns NaN). -/
def mean [DivisionRing α] (l : List α) : α := l.sum / (l.length : α)

/-- Embeds `np.std` of a 1-D real array: population standard deviation
`sqrt(mean((x - mean x)^2))`. -/
noncomputable def npStd (l : List ℝ) : ℝ :=
  Real.sqrt (mean (l.map (fun v => (v - mean l) ^ 2)))

/-- Column `i` of a row-major matrix (junk default `0` out of range). -/
def matCol [Zero α] (m : List (List α)) (i : ℕ) : List α :=
  m.map (fun row => (row[i]?).getD 0)

/-- Embeds `np.flip(m)` on a 2-D array with no axis argument: reverses EVERY axis,
i.e. both the row order and the column order. -/
def flipBoth (m : List (List α)) : List (List α) :=
  (m.map List.reverse).reverse

/-- Embeds `np.flip(m, axis=1)`: reverses only the column order of each row. -/
def flipCols (m : List (List α)) : List (List α) :=
  m.map List.reverse

/-- A chain accessor (`SlicesCore` / `HyperModelCore`): an ordered list of
parameter names and, for each name, that parameter's full chain. -/
structure SlicesCore (π : Type) (α : Type) where
  params : List π
  chains : π → List α

/-- Modelled from the spec: `Core.get_param(name, thin_by)` — the `Core` class
lives outside this module; per the spec's external-interface section it
"returns the full (or strided) sample sequence for that name". -/
def SlicesCore.get_param (core : SlicesCore π α) (p : π) (thin_by : ℕ) : List α :=
  thinBy (core.chains p) thin_by

/-- Embeds `min(chain_lengths)` over the chains named by `core.params`
(junk `0` for empty `params`, where Python `min([])` raises). -/
def minChainLength (core : SlicesCore π α) : ℕ :=
  ((core.params.map (fun t => (core.chains t).length)).min?).getD 0

/-- Embeds `bootstrap(core, param, num_reals, num_samples)`:
`tau = int(integrated_time(core.get_param(param)))`;
`array = core.get_param(param, thin_by=tau)`;
`new_array = rng.choice(array, (num_samples, num_reals))` — drawn from the
module-level generator `g`, which the call advances. -/
def bootstrap [Zero α] (it : List α → ℕ) (core : SlicesCore π α) (param : π)
    (num_reals num_samples : ℕ) (g : Gen) : List (List α) × Gen :=
  let tau := it (core.get_param param 1)
  let array := core.get_param param tau
  g.choice 0 array num_samples num_reals

/-- Embeds `make_betalike(slices_core)`: record each named chain's length, take the
minimum, and fill a `(min_length, num_temps)` matrix whose column `ii` is
`hot_chain[len(hot_chain) - min_length:]`. Returns `(temps, betalike)`. -/
def make_betalike [Zero α] (core : SlicesCore π α) : List π × List (List α) :=
  let temps := core.params
  let min_length := minChainLength core
  let betalike := (List.range min_length).map (fun k =>
    temps.map (fun t =>
      let hot_chain := core.chains t
      (hot_chain[(hot_chain.length - min_length) + k]?).getD 0))
  (temps, betalike)

/-- One iteration of the `ti_bootstrap` loop body for a column `col`:
`tau = int(integrated_time(col))`; `trimmed_like = col[::tau]`;
`num_samples = int(0.1 * len(trimmed_like))`;
`np.mean(rng.choice(col, (num_reals, num_samples)), axis=1)` —
the draw pool is the untrimmed column, the subsample size comes from the
thinned one. Returns the per-realization means and the advanced generator. -/
def tiColMeans [DivisionRing α] (it : List α → ℕ) (col : List α) (num_reals : ℕ)
    (g : Gen) : List α × Gen :=
  let tau := it col
  let trimmed_like := thinBy col tau
  let num_samples := trimmed_like.length / 10
  let dg := g.choice 0 col num_reals num_samples
  (dg.1.map mean, dg.2)

/-- The `for ii in range(num_chains)` loop of `ti_bootstrap`: successively fills
`new_means[:, ii]` for `ii = 0, 1, ...`, threading the one local generator. -/
def tiMeansCols [DivisionRing α] (it : List α → ℕ) (betalike : List (List α))
    (num_reals : ℕ) : ℕ → Gen → List (List α) × Gen
  | 0, g => ([], g)
  | n + 1, g =>
    let acc := tiMeansCols it betalike num_reals n g
    let c := tiColMeans it (matCol betalike n) num_reals acc.2
    (acc.1 ++ [c.1], c.2)

/-- The `new_means` matrix of `ti_bootstrap` as assembled by its loop,
BEFORE the final `np.flip`: rows = realizations, columns = temperature chains
in the input column order. -/
def ti_bootstrap_assembled [DivisionRing α] (it : List α → ℕ) (betalike : List (List α))
    (num_chains num_reals : ℕ) (fresh : Gen) : List (List α) :=
  let cols := (tiMeansCols it betalike num_reals num_chains fresh).1
  (List.range num_reals).map (fun r => cols.map (fun cl => (cl[r]?).getD 0))

/-- Embeds `ti_bootstrap(betalike, num_chains, num_reals)`: assemble the realization-
mean matrix, then `new_means = np.flip(new_means)` — `np.flip` with no axis
argument, which reverses both axes. The function body opens with
`rng = np.random.default_rng()`, so all its draws come from the local
generator `fresh`. -/
def ti_bootstrap [DivisionRing α] (it : List α → ℕ) (betalike : List (List α))
    (num_chains num_reals : ℕ) (fresh : Gen) : List (List α) :=
  flipBoth (ti_bootstrap_assembled it betalike num_chains num_reals fresh)

/-- A call to `ti_bootstrap` as a transformer of the module-level generator
state: the body shadows `rng` with a locally created `np.random.default_rng()`
(the `fresh` argument), so the module-level generator `globalRng` passes
through untouched. -/
def ti_bootstrap_call [DivisionRing α] (it : List α → ℕ) (betalike : List (List α))
    (num_chains num_reals : ℕ) (globalRng fresh : Gen) : List (List α) × Gen :=
  (ti_bootstrap it betalike num_chains num_reals fresh, globalRng)

-- Odds-ratio bootstrapper

/-- Membership test used by `odds_ratio_bootstrap`:
`(s > dom[0]) & (s <= dom[1])`. -/
def inDomain [LinearOrder α] (dom : α × α) (s : α) : Bool :=
  decide (dom.1 < s) && decide (s ≤ dom.2)

/-- Embeds `len(np.where((row > dom[0]) & (row <= dom[1]))[0])`: how many samples of
`row` fall in the half-open interval `dom`. -/
def countIn [LinearOrder α] (dom : α × α) (row : List α) : ℕ :=
  (row.filter (inDomain dom)).length

/-- The `new_nmodels` draw matrix of `odds_ratio_bootstrap`:
`tau = int(integrated_time(nmodel))`; `thinned_nmodel = nmodel[::tau]`;
`num_samples = int(0.1 * len(thinned_nmodel))`;
`new_nmodels = rng.choice(nmodel, (num_reals, num_samples))` — again the pool
is the untrimmed array while the size comes from the thinned one. -/
def odds_new_nmodels [Zero α] (it : List α → ℕ) (nmodel : List α) (num_reals : ℕ)
    (g : Gen) : List (List α) :=
  let tau := it nmodel
  let thinned_nmodel := thinBy nmodel tau
  let num_samples := thinned_nmodel.length / 10
  (g.choice 0 nmodel num_reals num_samples).1

/-- The `ors[ii] = count0 / count1` loop of `odds_ratio_bootstrap`, one entry
per draw row. Each ratio is Python int true-division; a zero denominator
raises `ZeroDivisionError`, modelled as `none` for the whole loop. -/
def odds_ors_rows [LinearOrderedField α] (domains : (α × α) × (α × α)) :
    List (List α) → Option (List ℚ)
  | [] => some []
  | row :: rest =>
    if countIn domains.2 row = 0 then none
    else
      match odds_ors_rows domains rest with
      | none => none
      | some qs => some (((countIn domains.1 row : ℚ) / (countIn domains.2 row : ℚ)) :: qs)

/-- The per-realization ratios `ors` of `odds_ratio_bootstrap`. -/
def odds_ors [LinearOrderedField α] (it : List α → ℕ) (nmodel : List α)
    (num_reals : ℕ) (domains : (α × α) × (α × α)) (g : Gen) : Option (List ℚ) :=
  odds_ors_rows domains (odds_new_nmodels it nmodel num_reals g)

/-- Embeds `odds_ratio_bootstrap(hmcore, num_reals, domains)`: bootstrap the `nmodel`
chain and return `(np.mean(ors), np.std(ors))`; `none` models the
`ZeroDivisionError` raised when some realization has no samples in
`domains[1]`. The body opens with `rng = np.random.default_rng()`, a local
generator (`fresh`). -/
noncomputable def odds_ratio_bootstrap [LinearOrderedField α] (it : List α → ℕ)
    (hmcore : SlicesCore String α) (num_reals : ℕ) (domains : (α × α) × (α × α))
    (fresh : Gen) : Option (ℝ × ℝ) :=
  let nmodel := hmcore.get_param "nmodel" 1
  (odds_ors it nmodel num_reals domains fresh).map
    (fun ors => (mean (ors.map (fun q => (q : ℝ))), npStd (ors.map (fun q => (q : ℝ)))))

/-- A call to `odds_ratio_bootstrap` as a transformer of the module-level
generator state: the body draws only from its locally created generator, so
the module-level generator passes through untouched. -/
noncomputable def odds_ratio_bootstrap_call [LinearOrderedField α] (it : List α → ℕ)
    (hmcore : SlicesCore String α) (num_reals : ℕ) (domains : (α × α) × (α × α))
    (globalRng fresh : Gen) : Option (ℝ × ℝ) × Gen :=
  (odds_ratio_bootstrap it hmcore num_reals domains fresh, globalRng)

-- Bayes-factor combiner

/-- An uncertain scalar of the `uncertainties` package: nominal value and
standard error. -/
structure UF where
  n : ℝ
  s : ℝ

/-- Embeds `ufloat(p)` built from a `(nominal, std_dev)` pair. -/
def ufloat (p : ℝ × ℝ) : UF := ⟨p.1, p.2⟩

/-- Difference of two independent uncertain scalars: nominal values subtract,
standard errors add in quadrature (linear error propagation). -/
noncomputable def UF.sub (a b : UF) : UF :=
  ⟨a.n - b.n, Real.sqrt (a.s ^ 2 + b.s ^ 2)⟩

/-- Embeds `umath.exp` on an uncertain scalar: `s ↦ |exp'(n)| * s = exp(n) * s`.
On the single-variable chain of operations used in `log10_bf`, this
first-order propagation reproduces the library's correlation tracking
exactly. -/
noncomputable def UF.uexp (a : UF) : UF :=
  ⟨Real.exp a.n, |Real.exp a.n| * a.s⟩

/-- Embeds `umath.log10` on an uncertain scalar: `s ↦ |1 / (n * ln 10)| * s`. -/
noncomputable def UF.ulog10 (a : UF) : UF :=
  ⟨Real.logb 10 a.n, |1 / (a.n * Real.log 10)| * a.s⟩

/-- Embeds `log10_bf(log_ev1, log_ev2, scale)`: build uncertain scalars, subtract,
exponentiate, take log10, and return the `(nominal, std)` pair selected by
`scale`; any other `scale` falls off the `if/elif` chain and returns `None`. -/
noncomputable def log10_bf (log_ev1 log_ev2 : ℝ × ℝ) (scale : String) :
    Option (ℝ × ℝ) :=
  let log_evidence1 := ufloat log_ev1
  let log_evidence2 := ufloat log_ev2
  let log_bf := UF.sub log_evidence2 log_evidence1
  let bf := UF.uexp log_bf
  let l10bf := UF.ulog10 bf
  if scale = "log" then some (log_bf.n, log_bf.s)
  else if scale = "1" then some (bf.n, bf.s)
  else if scale = "log10" then some (l10bf.n, l10bf.s)
  else none

-- Thermodynamic integration: ti_log_evidence

/-- Embeds `np.linspace(a, b, num)`: `num` equally spaced points from `a` to `b`. -/
noncomputable def linspace (a b : ℝ) (num : ℕ) : List ℝ :=
  (List.range num).map (fun k => a + (k : ℝ) * (b - a) / ((num : ℝ) - 1))

/-- Embeds `scipy.interpolate.interp1d(x, y)` (linear), evaluated at `t`: on the
segment `[x_k, x_(k+1)]` containing `t` it returns the chord value. -/
noncomputable def interp : List ℝ → List ℝ → ℝ → ℝ
  | x0 :: x1 :: xs, y0 :: y1 :: ys, t =>
    if t ≤ x1 then y0 + (y1 - y0) * (t - x0) / (x1 - x0)
    else interp (x1 :: xs) (y1 :: ys) t
  | _, y0 :: _, _ => y0
  | _, [], _ => 0

/-- Embeds `np.trapz(y, x)`: the trapezoidal rule `Σ (x_(k+1) - x_k) * (y_k + y_(k+1)) / 2`. -/
noncomputable def trapz : List ℝ → List ℝ → ℝ
  | y0 :: y1 :: ys, x0 :: x1 :: xs =>
    (x1 - x0) * (y0 + y1) / 2 + trapz (y1 :: ys) (x1 :: xs)
  | _, _ => 0

/-- One realization's log-evidence inside `ti_log_evidence`:
`np.trapz(y_spl(x_new), 10**(x_new))` where `y_spl = interp1d(x, y)`. -/
noncomputable def lnZ_of_row (x x_new y : List ℝ) : ℝ :=
  trapz (x_new.map (interp x y)) (x_new.map (fun t => (10 : ℝ) ^ t))

/-- Embeds `ti_log_evidence(slices_core, iterations)` (plot/verbose side effects
dropped): build the ladder, invert the reversed temperatures, run
`ti_bootstrap`, interpolate each realization on a 10,000-point
`linspace(x[0], x[-1])` grid over `x = log10(inv_temps)`, integrate against
`10**x_new`, and return the mean and standard deviation over realizations. -/
noncomputable def ti_log_evidence (it : List ℝ → ℕ) (core : SlicesCore ℝ ℝ)
    (iterations : ℕ) (fresh : Gen) : ℝ × ℝ :=
  let tb := make_betalike core
  let temps := tb.1
  let betalike := tb.2
  let inv_temps := temps.reverse.map (fun t => 1 / t)
  let num_chains := inv_temps.length
  let new_means := ti_bootstrap it betalike num_chains iterations fresh
  let x := inv_temps.map (fun v => Real.logb 10 v)
  let x_new := linspace ((x[0]?).getD 0) ((x[x.length - 1]?).getD 0) 10000
  let ln_Z_arr := (List.range iterations).map (fun ii =>
    lnZ_of_row x x_new ((new_means[ii]?).getD []))
  (mean ln_Z_arr, npStd ln_Z_arr)

/-- The claim's reading of `ti_log_evidence`: the realization-level bootstrap
means (the assembled matrix with only its temperature columns reversed into
ascending inverse-temperature order, realizations kept in their original
order); each realization's log-evidence is the trapezoidal integral against
`10^x` of the linear interpolation of its means on 10,000 equally spaced
points spanning the range of `log10` of the inverse temperatures
`1 / reverse(temps)`; the result is the mean and standard deviation of those
values. -/
noncomputable def ti_log_evidence_claim (it : List ℝ → ℕ) (core : SlicesCore ℝ ℝ)
    (iterations : ℕ) (fresh : Gen) : ℝ × ℝ :=
  let tb := make_betalike core
  let temps := tb.1
  let betalike := tb.2
  let inv_temps := temps.reverse.map (fun t => 1 / t)
  let num_chains := inv_temps.length
  let boot_means := flipCols (ti_bootstrap_assembled it betalike num_chains iterations fresh)
  let x := inv_temps.map (fun v => Real.logb 10 v)
  let x_new := linspace ((x[0]?).getD 0) ((x[x.length - 1]?).getD 0) 10000
  let ln_Z_arr := boot_means.map (lnZ_of_row x x_new)
  (mean ln_Z_arr, npStd ln_Z_arr)

/-! ## Helper lemmas -/

theorem rngChoice_length (dflt : α) (arr : List α) (rows cols : ℕ) (stream : ℕ → ℕ)
    (pos : ℕ) : (rngChoice dflt arr rows cols stream pos).length = rows := by
  simp [rngChoice]

theorem rngChoice_row_length {dflt : α} {arr : List α} {rows cols : ℕ} {stream : ℕ → ℕ}
    {pos : ℕ} {row : List α} (h : row ∈ rngChoice dflt arr rows cols stream pos) :
    row.length = cols := by
  simp only [rngChoice, List.mem_map, List.mem_range] at h
  obtain ⟨r, -, rfl⟩ := h
  simp

theorem rngChoice_entry_mem {dflt : α} {arr : List α} {rows cols : ℕ} {stream : ℕ → ℕ}
    {pos : ℕ} {row : List α} (harr : arr ≠ [])
    (h : row ∈ rngChoice dflt arr rows cols stream pos) {v : α} (hv : v ∈ row) :
    v ∈ arr := by
  simp only [rngChoice, List.mem_map, List.mem_range] at h
  obtain ⟨r, -, rfl⟩ := h
  simp only [List.mem_map, List.mem_range] at hv
  obtain ⟨cidx, -, rfl⟩ := hv
  have hlen : 0 < arr.length := List.length_pos.mpr harr
  have hlt : (stream (pos + r * cols + cidx)) % arr.length < arr.length :=
    Nat.mod_lt _ hlen
  rw [List.getElem?_eq_getElem hlt]
  exact List.getElem_mem _

theorem getD_range_map {γ : Type} (l : List β) (d : β) (F : β → γ) :
    (List.range l.length).map (fun i => F ((l[i]?).getD d)) = l.map F := by
  apply List.ext_getElem
  · simp
  · intro i h1 h2
    simp only [List.getElem_map, List.getElem_range, List.length_range] at h1 ⊢
    rw [List.getElem?_eq_getElem (by simpa using h2)]
    rfl

theorem mean_reverse [DivisionRing α] (l : List α) : mean l.reverse = mean l := by
  simp [mean, List.sum_reverse]

theorem npStd_reverse (l : List ℝ) : npStd l.reverse = npStd l := by
  simp only [npStd, mean_reverse, List.map_reverse]

/-! ## Concrete fixtures used by witnesses and counterexamples -/

/-- A stand-in for `int(integrated_time(...))` that always reports stride 1. -/
def itQ : List ℚ → ℕ := fun _ => 1

/-- A concrete generator whose index stream is the identity. -/
def genId : Gen := ⟨fun n => n, 0⟩

/-- A concrete generator with a shifted index stream. -/
def genShift : Gen := ⟨fun n => n + 1, 0⟩

/-- A concrete 10 x 2 beta-likelihood matrix: row `k` is `[2k, 2k+1]`, so the
thinned column length is 10 and the bootstrap subsample size is 1. -/
def blQ : List (List ℚ) :=
  [[0, 1], [2, 3], [4, 5], [6, 7], [8, 9],
   [10, 11], [12, 13], [14, 15], [16, 17], [18, 19]]

/-- A concrete two-parameter accessor with chains of unequal length. -/
def coreQ : SlicesCore ℕ ℚ :=
  ⟨[0, 1], fun p => if p = 0 then [1, 2, 3, 4, 5] else [6, 7, 8]⟩

/-- A concrete single-parameter accessor with a 20-sample chain. -/
def coreB : SlicesCore ℕ ℚ := ⟨[0], fun _ => (List.range 20).map (fun k => (k : ℚ))⟩

/-- A concrete hypermodel accessor whose `nmodel` chain sits entirely in the
first model domain. -/
def hmQ : SlicesCore String ℚ := ⟨["nmodel"], fun _ => List.replicate 20 (0 : ℚ)⟩

/-- The default model domains `([-0.5, 0.5], [0.5, 1.5])` over `ℚ`
(written with `mkRat` so that the values reduce in the kernel). -/
def domainsQ : (ℚ × ℚ) × (ℚ × ℚ) :=
  ((mkRat (-1) 2, mkRat 1 2), (mkRat 1 2, mkRat 3 2))

/-! ## Claim C2 -/

/-- C2: for an accessor with a non-empty parameter list, `make_betalike` returns
a matrix with exactly `min_length` rows and one column per parameter, where
column `i` is the trailing `min_length` samples of parameter `i`'s chain and
the column order matches the input parameter order (the returned temperature
list is the parameter list itself). -/
theorem make_betalike_truncation [Zero α] (core : SlicesCore π α)
    (h : core.params ≠ []) :
    (make_betalike core).1 = core.params ∧
    (make_betalike core).2.length = minChainLength core ∧
    (∀ row ∈ (make_betalike core).2, row.length = core.params.length) ∧
    (∀ i : Fin core.params.length,
      matCol (make_betalike core).2 i.val =
        (core.chains (core.params.get i)).drop
          ((core.chains (core.params.get i)).length - minChainLength core)) := by
  refine ⟨rfl, by simp [make_betalike], ?_, ?_⟩
  · intro row hrow
    simp only [make_betalike, List.mem_map, List.mem_range] at hrow
    obtain ⟨k, -, rfl⟩ := hrow
    simp
  · intro i
    rcases i with ⟨iv, hiv⟩
    simp only [List.get_eq_getElem]
    have hmem : (core.chains core.params[iv]).length ∈
        core.params.map (fun t => (core.chains t).length) :=
      List.mem_map_of_mem _ (List.getElem_mem hiv)
    obtain ⟨m, hm⟩ : ∃ m, (core.params.map (fun t => (core.chains t).length)).min? = some m := by
      cases hmm : (core.params.map (fun t => (core.chains t).length)).min? with
      | none =>
        rw [List.min?_eq_none_iff, List.map_eq_nil_iff] at hmm
        exact absurd hmm h
      | some m => exact ⟨m, rfl⟩
    have hle : minChainLength core ≤ (core.chains core.params[iv]).length := by
      have h2 := (List.min?_eq_some_iff'.mp hm).2 _ hmem
      simpa [minChainLength, hm] using h2
    apply List.ext_getElem
    · simp only [matCol, make_betalike, List.length_map, List.length_range,
        List.length_drop]
      omega
    · intro k hk1 hk2
      have hkmin : k < minChainLength core := by
        simpa [matCol, make_betalike] using hk1
      have hidx : (core.chains core.params[iv]).length - minChainLength core + k <
          (core.chains core.params[iv]).length := by omega
      simp only [matCol, make_betalike, List.getElem_map, List.getElem_range,
        List.getElem_drop, List.getElem?_map]
      rw [List.getElem?_eq_getElem hiv]
      simp only [Option.map_some', Option.getD_some]
      rw [List.getElem?_eq_getElem hidx]
      rfl

/-- Witness for C2 at the concrete accessor `coreQ`. -/
theorem make_betalike_truncation_witness :
    coreQ.params ≠ [] ∧
    ((make_betalike coreQ).1 = coreQ.params ∧
     (make_betalike coreQ).2.length = minChainLength coreQ ∧
     (∀ row ∈ (make_betalike coreQ).2, row.length = coreQ.params.length) ∧
     (∀ i : Fin coreQ.params.length,
       matCol (make_betalike coreQ).2 i.val =
         (coreQ.chains (coreQ.params.get i)).drop
           ((coreQ.chains (coreQ.params.get i)).length - minChainLength coreQ))) :=
  ⟨by decide, make_betalike_truncation coreQ (by decide)⟩

/-! ## Claim C4 -/

/-- C4 counterexample: with `num_reals = 2` and `num_samples = 3`, the draw
matrix of `bootstrap` does NOT have shape `(num_reals, num_samples)`: the
code passes `(num_samples, num_reals)` to `rng.choice`, so it has 3 rows of
length 2, not 2 rows of length 3. -/
theorem bootstrap_shape_counterexample :
    ¬ ((bootstrap itQ coreB 0 2 3 genId).1.length = 2 ∧
       ∀ row ∈ (bootstrap itQ coreB 0 2 3 genId).1, row.length = 3) := by
  decide

/-- C4 (amended): the draw matrix of `bootstrap` has shape
`(num_samples, num_reals)` — `num_samples` rows of `num_reals` entries — and,
when the thinned pool is non-empty, every entry is an element of the thinned
input array. -/
theorem bootstrap_shape [Zero α] (it : List α → ℕ) (core : SlicesCore π α) (param : π)
    (num_reals num_samples : ℕ) (g : Gen)
    (h : core.get_param param (it (core.get_param param 1)) ≠ []) :
    (bootstrap it core param num_reals num_samples g).1.length = num_samples ∧
    ∀ row ∈ (bootstrap it core param num_reals num_samples g).1,
      row.length = num_reals ∧
      ∀ v ∈ row, v ∈ core.get_param param (it (core.get_param param 1)) :=
  ⟨rngChoice_length _ _ _ _ _ _, fun _ hrow =>
    ⟨rngChoice_row_length hrow, fun _ hv => rngChoice_entry_mem h hrow hv⟩⟩

/-- Witness for the amended C4 at the concrete accessor `coreB`. -/
theorem bootstrap_shape_witness :
    coreB.get_param 0 (itQ (coreB.get_param 0 1)) ≠ [] ∧
    ((bootstrap itQ coreB 0 2 3 genId).1.length = 3 ∧
     ∀ row ∈ (bootstrap itQ coreB 0 2 3 genId).1,
       row.length = 2 ∧ ∀ v ∈ row, v ∈ coreB.get_param 0 (itQ (coreB.get_param 0 1))) :=
  ⟨by decide, bootstrap_shape itQ coreB 0 2 3 genId (by decide)⟩

/-! ## Claim C9 -/

/-- C9: for any scale selector outside `{"log", "1", "log10"}`, `log10_bf`
falls off its `if/elif` chain and returns `None` rather than raising or
defaulting to one of the three scales. -/
theorem log10_bf_unknown_scale (e1 e2 : ℝ × ℝ) (scale : String)
    (h : scale ∉ ["log", "1", "log10"]) : log10_bf e1 e2 scale = none := by
  simp only [List.mem_cons, List.not_mem_nil, or_false, not_or] at h
  obtain ⟨h1, h2, h3⟩ := h
  simp [log10_bf, h1, h2, h3]

/-- Witness for C9 at the concrete scale string `"linear"`. -/
theorem log10_bf_unknown_scale_witness :
    "linear" ∉ (["log", "1", "log10"] : List String) ∧
    log10_bf (0, 0) (0, 0) "linear" = none :=
  ⟨by decide, log10_bf_unknown_scale (0, 0) (0, 0) "linear" (by decide)⟩

/-! ## Claim C10 -/

/-- C10: `odds_ratio_bootstrap` counts a sample `s` in domain `k` exactly when
`domains[k][0] < s <= domains[k][1]` (open below, closed above), so with the
default adjacent domains the shared boundary value `0.5` counts for domain 0
only. -/
theorem inDomain_boundary :
    (∀ (dom : ℚ × ℚ) (s : ℚ), inDomain dom s = true ↔ dom.1 < s ∧ s ≤ dom.2) ∧
    (∀ (dom : ℚ × ℚ) (row : List ℚ),
      countIn dom row = (row.filter (fun s => decide (dom.1 < s ∧ s ≤ dom.2))).length) ∧
    inDomain domainsQ.1 (mkRat 1 2) = true ∧ inDomain domainsQ.2 (mkRat 1 2) = false := by
  refine ⟨?_, ?_, by decide, by decide⟩
  · intro dom s
    simp [inDomain]
  · intro dom row
    unfold countIn
    congr 1
    apply List.filter_congr
    intro s _
    simp [inDomain]

/-! ## Claim C3 -/

/-- Concrete evaluation of the loop-assembled realization-mean matrix at `blQ`
with the identity-stream generator. -/
theorem assembled_blQ_genId :
    ti_bootstrap_assembled itQ blQ 2 2 genId = [[0, 5], [2, 7]] := by
  simp [ti_bootstrap_assembled, tiMeansCols, tiColMeans, Gen.choice, rngChoice,
    thinBy, matCol, mean, blQ, itQ, genId, List.range_succ]

/-- Concrete evaluation of the loop-assembled realization-mean matrix at `blQ`
with the shifted-stream generator. -/
theorem assembled_blQ_genShift :
    ti_bootstrap_assembled itQ blQ 2 2 genShift = [[2, 7], [4, 9]] := by
  simp [ti_bootstrap_assembled, tiMeansCols, tiColMeans, Gen.choice, rngChoice,
    thinBy, matCol, mean, blQ, itQ, genShift, List.range_succ]

/-- C3 evaluated at a concrete input: `ti_bootstrap` applies `np.flip` with no
axis argument, so at the concrete 10 x 2 matrix `blQ` its output reverses the
realization rows as well as the temperature columns; the claim's column-only
reversal `flipCols` of the assembled matrix differs from what the code
returns. -/
theorem ti_bootstrap_flip_reverses_rows_too :
    ti_bootstrap itQ blQ 2 2 genId = flipBoth (ti_bootstrap_assembled itQ blQ 2 2 genId) ∧
    ti_bootstrap_assembled itQ blQ 2 2 genId = [[0, 5], [2, 7]] ∧
    ti_bootstrap itQ blQ 2 2 genId = [[7, 2], [5, 0]] ∧
    flipCols (ti_bootstrap_assembled itQ blQ 2 2 genId) = [[5, 0], [7, 2]] ∧
    ti_bootstrap itQ blQ 2 2 genId ≠ flipCols (ti_bootstrap_assembled itQ blQ 2 2 genId) := by
  refine ⟨rfl, assembled_blQ_genId, ?_, ?_, ?_⟩
  · rw [ti_bootstrap, assembled_blQ_genId]
    rfl
  · rw [assembled_blQ_genId]
    rfl
  · rw [ti_bootstrap, assembled_blQ_genId]
    decide

/-! ## Claim C6 -/

/-- A concrete module-level generator state, distinct from the local ones. -/
def genGlob : Gen := ⟨fun _ => 0, 5⟩

/-- C6 counterexample: a `ti_bootstrap` call leaves the module-level generator
completely untouched while its output does change with the locally created
generator — so not every random draw of the module reads from and advances
the process-wide generator. -/
theorem ti_bootstrap_ignores_module_rng :
    (ti_bootstrap_call itQ blQ 2 2 genGlob genId).2 = genGlob ∧
    (ti_bootstrap_call itQ blQ 2 2 genGlob genId).1 ≠
      (ti_bootstrap_call itQ blQ 2 2 genGlob genShift).1 := by
  refine ⟨rfl, ?_⟩
  show ti_bootstrap itQ blQ 2 2 genId ≠ ti_bootstrap itQ blQ 2 2 genShift
  rw [ti_bootstrap, ti_bootstrap, assembled_blQ_genId, assembled_blQ_genShift]
  decide

/-- C6 (amended): only the generic `bootstrap` draws from (and advances) the
module-level generator — by exactly `num_samples * num_reals` draws — while
`ti_bootstrap` and `odds_ratio_bootstrap` each create a fresh local generator
(`rng = np.random.default_rng()` inside the function body) and leave the
module-level generator state unchanged. -/
theorem module_rng_usage [LinearOrderedField α] (it : List α → ℕ)
    (core : SlicesCore π α) (param : π) (num_reals num_samples : ℕ)
    (betalike : List (List α)) (num_chains : ℕ) (hmcore : SlicesCore String α)
    (domains : (α × α) × (α × α)) (g fresh : Gen) :
    (bootstrap it core param num_reals num_samples g).2 =
      ⟨g.stream, g.pos + num_samples * num_reals⟩ ∧
    (ti_bootstrap_call it betalike num_chains num_reals g fresh).2 = g ∧
    (odds_ratio_bootstrap_call it hmcore num_reals domains g fresh).2 = g :=
  ⟨rfl, rfl, rfl⟩

/-! ## Claim C7 -/

/-- A draw-row list with a row empty of domain-1 samples makes the `ors` loop
abort with `none` (the `ZeroDivisionError`). -/
theorem odds_ors_rows_none [LinearOrderedField α] (domains : (α × α) × (α × α))
    (rows : List (List α)) (h : ∃ row ∈ rows, countIn domains.2 row = 0) :
    odds_ors_rows domains rows = none := by
  induction rows with
  | nil => simp at h
  | cons row rest ih =>
    rcases h with ⟨r, hr, hz⟩
    rcases List.mem_cons.mp hr with rfl | hmem
    · simp [odds_ors_rows, hz]
    · unfold odds_ors_rows
      rw [ih ⟨r, hmem, hz⟩]
      split
      · rfl
      · rfl

/-- C7 counterexample: at a concrete hypermodel chain whose samples all lie in
domain 0, a realization has zero samples in domain 1 and the call yields NO
returned value at all (the Python int division raises `ZeroDivisionError`),
rather than a mean/standard-deviation pair containing a non-finite ratio. -/
theorem odds_ratio_zero_denominator_aborts :
    (∃ row ∈ odds_new_nmodels itQ (hmQ.get_param "nmodel" 1) 1 genId,
        countIn domainsQ.2 row = 0) ∧
    odds_ratio_bootstrap itQ hmQ 1 domainsQ genId = none := by
  constructor
  · decide
  · have h : odds_ors itQ (hmQ.get_param "nmodel" 1) 1 domainsQ genId = none := by decide
    simp only [odds_ratio_bootstrap]
    rw [h]
    rfl

/-- C7 (amended): whenever some bootstrap realization has zero samples in
domain 1's interval, the unguarded integer division raises and the call
returns nothing (modelled `none`) — no mean or standard deviation, finite or
not, is produced. -/
theorem odds_ratio_zero_denominator [LinearOrderedField α] (it : List α → ℕ)
    (hmcore : SlicesCore String α) (num_reals : ℕ) (domains : (α × α) × (α × α))
    (fresh : Gen)
    (h : ∃ row ∈ odds_new_nmodels it (hmcore.get_param "nmodel" 1) num_reals fresh,
         countIn domains.2 row = 0) :
    odds_ratio_bootstrap it hmcore num_reals domains fresh = none := by
  simp only [odds_ratio_bootstrap]
  rw [show odds_ors it (hmcore.get_param "nmodel" 1) num_reals domains fresh = none from
    odds_ors_rows_none domains _ h]
  rfl

/-- Witness for the amended C7 at the concrete hypermodel accessor `hmQ`. -/
theorem odds_ratio_zero_denominator_witness :
    (∃ row ∈ odds_new_nmodels itQ (hmQ.get_param "nmodel" 1) 2 genId,
        countIn domainsQ.2 row = 0) ∧
    odds_ratio_bootstrap itQ hmQ 2 domainsQ genId = none :=
  ⟨by decide, odds_ratio_zero_denominator itQ hmQ 2 domainsQ genId (by decide)⟩

/-! ## Claim C8 -/

/-- C8: the three scale selectors of `log10_bf` are mutually consistent: the
`'1'` nominal is `exp` of the `'log'` nominal, the `'log10'` nominal is the
`'log'` nominal divided by `ln 10`, and the standard errors follow the
corresponding first-order uncertainty propagation (`s_1 = exp(n_log) * s_log`
and `s_log10 = s_log / ln 10`). -/
theorem log10_bf_scale_consistency (n1 s1 n2 s2 : ℝ) :
    ∃ pl p1 pt : ℝ × ℝ,
      log10_bf (n1, s1) (n2, s2) "log" = some pl ∧
      log10_bf (n1, s1) (n2, s2) "1" = some p1 ∧
      log10_bf (n1, s1) (n2, s2) "log10" = some pt ∧
      p1.1 = Real.exp pl.1 ∧ p1.2 = Real.exp pl.1 * pl.2 ∧
      pt.1 = pl.1 / Real.log 10 ∧ pt.2 = pl.2 / Real.log 10 := by
  have hlog : log10_bf (n1, s1) (n2, s2) "log"
      = some (n2 - n1, Real.sqrt (s2 ^ 2 + s1 ^ 2)) := by
    simp [log10_bf, ufloat, UF.sub]
  have h1 : log10_bf (n1, s1) (n2, s2) "1"
      = some (Real.exp (n2 - n1),
              |Real.exp (n2 - n1)| * Real.sqrt (s2 ^ 2 + s1 ^ 2)) := by
    simp [log10_bf, ufloat, UF.sub, UF.uexp]
  have hlog10 : log10_bf (n1, s1) (n2, s2) "log10"
      = some (Real.logb 10 (Real.exp (n2 - n1)),
              |1 / (Real.exp (n2 - n1) * Real.log 10)| *
                (|Real.exp (n2 - n1)| * Real.sqrt (s2 ^ 2 + s1 ^ 2))) := by
    simp [log10_bf, ufloat, UF.sub, UF.uexp, UF.ulog10]
  have hex : (0 : ℝ) < Real.exp (n2 - n1) := Real.exp_pos _
  have hlten : (0 : ℝ) < Real.log 10 := Real.log_pos (by norm_num)
  refine ⟨_, _, _, hlog, h1, hlog10, rfl, ?_, ?_, ?_⟩
  · simp [abs_of_pos hex]
  · simp [Real.logb, Real.log_exp]
  · rw [abs_of_pos (by positivity), abs_of_pos hex]
    field_simp
    ring

/-! ## Claim C5 -/

theorem range_getD_self (l : List β) (d : β) :
    (List.range l.length).map (fun i => (l[i]?).getD d) = l := by
  simpa using getD_range_map l d id

theorem matCol_map [Zero α] {γ : Type} (m : List γ) (f : γ → List α) (i : ℕ) :
    matCol (m.map f) i = m.map (fun x => ((f x)[i]?).getD 0) := by
  simp [matCol, List.map_map, Function.comp_def]

theorem tiColMeans_length [DivisionRing α] (it : List α → ℕ) (col : List α)
    (num_reals : ℕ) (g : Gen) : (tiColMeans it col num_reals g).1.length = num_reals := by
  simp [tiColMeans, Gen.choice, rngChoice]

theorem tiMeansCols_stream [DivisionRing α] (it : List α → ℕ) (betalike : List (List α))
    (num_reals n : ℕ) (g : Gen) :
    ((tiMeansCols it betalike num_reals n g).2).stream = g.stream := by
  induction n with
  | zero => rfl
  | succ n ih => simpa [tiMeansCols, tiColMeans, Gen.choice] using ih

theorem tiMeansCols_length [DivisionRing α] (it : List α → ℕ) (betalike : List (List α))
    (num_reals n : ℕ) (g : Gen) :
    (tiMeansCols it betalike num_reals n g).1.length = n := by
  induction n with
  | zero => rfl
  | succ n ih => simp [tiMeansCols, ih]

theorem tiMeansCols_getElem [DivisionRing α] (it : List α → ℕ) (betalike : List (List α))
    (num_reals n : ℕ) (g : Gen) (i : ℕ) (hi : i < n) :
    ∃ g' : Gen, g'.stream = g.stream ∧
      (tiMeansCols it betalike num_reals n g).1[i]? =
        some (tiColMeans it (matCol betalike i) num_reals g').1 := by
  induction n with
  | zero => omega
  | succ n ih =>
    rcases Nat.lt_succ_iff_lt_or_eq.mp hi with h | rfl
    · obtain ⟨g', hs, hg⟩ := ih h
      refine ⟨g', hs, ?_⟩
      simp only [tiMeansCols]
      rw [List.getElem?_append_left (by rw [tiMeansCols_length]; exact h)]
      exact hg
    · refine ⟨(tiMeansCols it betalike num_reals i g).2,
        tiMeansCols_stream it betalike num_reals i g, ?_⟩
      simp only [tiMeansCols]
      rw [List.getElem?_append_right (by rw [tiMeansCols_length])]
      rw [tiMeansCols_length]
      simp

/-- C5: inside the `ti_bootstrap` loop, column `i` of the assembled
realization-mean matrix is built from `num_reals` draws of size
`floor(0.1 * length(thinned column))` taken from the UNTRIMMED column
(`betalike[:, i]`), and `odds_ratio_bootstrap` likewise draws `num_reals`
subsamples of size `floor(0.1 * length(thinned nmodel))` from the untrimmed
`nmodel` array: thinning informs the subsample size but not the draw pool. -/
theorem bootstrap_sizing_pool_mismatch [LinearOrderedField α] (it : List α → ℕ)
    (betalike : List (List α)) (num_chains num_reals : ℕ) (fresh : Gen)
    (i : ℕ) (hi : i < num_chains)
    (it2 : List α → ℕ) (nmodel : List α) (nr2 : ℕ) (g2 : Gen) :
    (∃ g' : Gen, g'.stream = fresh.stream ∧
      matCol (ti_bootstrap_assembled it betalike num_chains num_reals fresh) i =
        (rngChoice 0 (matCol betalike i) num_reals
          ((thinBy (matCol betalike i) (it (matCol betalike i))).length / 10)
          fresh.stream g'.pos).map mean) ∧
    odds_new_nmodels it2 nmodel nr2 g2 =
      rngChoice 0 nmodel nr2 ((thinBy nmodel (it2 nmodel)).length / 10)
        g2.stream g2.pos := by
  refine ⟨?_, rfl⟩
  obtain ⟨g', hs, hget⟩ := tiMeansCols_getElem it betalike num_reals num_chains fresh i hi
  refine ⟨g', hs, ?_⟩
  have hlen : (tiColMeans it (matCol betalike i) num_reals g').1.length = num_reals :=
    tiColMeans_length it (matCol betalike i) num_reals g'
  have h1 : matCol (ti_bootstrap_assembled it betalike num_chains num_reals fresh) i
      = (List.range num_reals).map (fun r =>
          (((tiMeansCols it betalike num_reals num_chains fresh).1[i]?).map
            (fun cl => (cl[r]?).getD 0)).getD 0) := by
    simp only [ti_bootstrap_assembled]
    rw [matCol_map]
    simp only [List.getElem?_map]
  have hcol : matCol (ti_bootstrap_assembled it betalike num_chains num_reals fresh) i
      = (tiColMeans it (matCol betalike i) num_reals g').1 := by
    rw [h1]
    simp only [hget, Option.map_some', Option.getD_some]
    generalize hL : (tiColMeans it (matCol betalike i) num_reals g').1 = L
    rw [hL] at hlen
    rw [← hlen]
    exact range_getD_self L 0
  rw [hcol, ← hs]
  rfl

/-- Witness for C5 at the concrete 10 x 2 matrix `blQ` and column 0. -/
theorem bootstrap_sizing_pool_mismatch_witness :
    (0 < 2) ∧
    ((∃ g' : Gen, g'.stream = genId.stream ∧
      matCol (ti_bootstrap_assembled itQ blQ 2 2 genId) 0 =
        (rngChoice 0 (matCol blQ 0) 2
          ((thinBy (matCol blQ 0) (itQ (matCol blQ 0))).length / 10)
          genId.stream g'.pos).map mean) ∧
    odds_new_nmodels itQ (hmQ.get_param "nmodel" 1) 2 genId =
      rngChoice 0 (hmQ.get_param "nmodel" 1) 2
        ((thinBy (hmQ.get_param "nmodel" 1) (itQ (hmQ.get_param "nmodel" 1))).length / 10)
        genId.stream genId.pos) :=
  ⟨by decide,
   bootstrap_sizing_pool_mismatch itQ blQ 2 2 genId 0 (by decide)
     itQ (hmQ.get_param "nmodel" 1) 2 genId⟩

/-! ## Claim C1 -/

theorem ti_bootstrap_assembled_length [DivisionRing α] (it : List α → ℕ)
    (betalike : List (List α)) (num_chains num_reals : ℕ) (fresh : Gen) :
    (ti_bootstrap_assembled it betalike num_chains num_reals fresh).length = num_reals := by
  simp [ti_bootstrap_assembled]

theorem flip_map_reverse {γ : Type} (m : List (List β)) (F : List β → γ) (n : ℕ)
    (hn : m.length = n) :
    (List.range n).map (fun ii => F (((flipBoth m)[ii]?).getD [])) =
      ((flipCols m).map F).reverse := by
  subst hn
  have hlen : (flipBoth m).length = m.length := by simp [flipBoth]
  rw [← hlen]
  rw [getD_range_map (flipBoth m) [] F]
  simp [flipBoth, flipCols, List.map_reverse, List.map_map]

theorem tiAgg_eq (x x_new : List ℝ) (m : List (List ℝ)) (n : ℕ) (hn : m.length = n) :
    (mean ((List.range n).map (fun ii => lnZ_of_row x x_new (((flipBoth m)[ii]?).getD []))),
     npStd ((List.range n).map (fun ii => lnZ_of_row x x_new (((flipBoth m)[ii]?).getD [])))) =
    (mean ((flipCols m).map (lnZ_of_row x x_new)),
     npStd ((flipCols m).map (lnZ_of_row x x_new))) := by
  rw [flip_map_reverse m (lnZ_of_row x x_new) n hn, mean_reverse, npStd_reverse]

/-- C1: `ti_log_evidence` returns exactly the claim's reading — the mean and
standard deviation over all realizations of the per-realization trapezoidal
integrals, against inverse temperature `10^x`, of the linear interpolation of
each realization's bootstrap means on 10,000 equally spaced points spanning
the range of `log10` of the inverse temperatures `1 / reverse(temps)`.
(The code's `np.flip` also reverses the realization order, but the mean and
standard deviation over realizations are invariant under that reversal, so
the returned pair is the claimed one.) -/
theorem ti_log_evidence_matches_claim (it : List ℝ → ℕ) (core : SlicesCore ℝ ℝ)
    (iterations : ℕ) (fresh : Gen) :
    ti_log_evidence it core iterations fresh =
      ti_log_evidence_claim it core iterations fresh := by
  simp only [ti_log_evidence, ti_log_evidence_claim, ti_bootstrap]
  exact tiAgg_eq _ _ _ _ (ti_bootstrap_assembled_length _ _ _ _ _)

end LaForge
